import Mathlib

/-!
Verification of the access-pattern / provider / operator core of the
ndarray library (src/ndarray.hpp, namespace nd).  The C++ template rank
parameter becomes an explicit natural number r; the fixed-arity tuples
shape_t / index_t / jumps_t become functions out of Fin r over Nat
(std::size_t); std::long jumps are modelled as Nat, per the core data-model
invariant that access-pattern jumps are at least one (signed jumps are
never used by the pattern algebra itself).  Fallible C++ operations that
throw std::logic_error return Except String here, carrying the exact
message thrown by the source.
-/

namespace nd

abbrev Index (r : Nat) := Fin r → Nat
abbrev Shape (r : Nat) := Fin r → Nat
abbrev Jumps (r : Nat) := Fin r → Nat

/-- shape_t::volume(): std::accumulate over the extents with initial
value 1 and multiplication. -/
def Shape.volume {r : Nat} (s : Shape r) : Nat :=
  (List.ofFn s).foldl (· * ·) 1

/-- shape_t::contains(index): the loop returns false as soon as some
extent is at most the coordinate, hence true iff every coordinate is
strictly below its extent. -/
def Shape.contains {r : Nat} (s : Shape r) (i : Index r) : Prop :=
  ∀ n, i n < s n

instance {r : Nat} (s : Shape r) (i : Index r) : Decidable (s.contains i) :=
  inferInstanceAs (Decidable (∀ n, i n < s n))

/-- shape_t::last_index(): the index whose coordinate on each axis is the
extent itself (the one-past-the-end convention). -/
def Shape.lastIndex {r : Nat} (s : Shape r) : Index r :=
  fun n => s n

/-- index_t::operator<= : all components satisfy <= (component-wise, not
lexicographic). -/
def Index.le {r : Nat} (a b : Index r) : Prop :=
  ∀ n, a n ≤ b n

instance {r : Nat} (a b : Index r) : Decidable (Index.le a b) :=
  inferInstanceAs (Decidable (∀ n, a n ≤ b n))

/-- access_pattern_t: triple (start, final, jumps). -/
structure AccessPattern (r : Nat) where
  start : Index r
  final : Index r
  jumps : Jumps r

/-- access_pattern_t::shape(): per axis final[n]/jumps[n] - start[n]/jumps[n]
(unsigned integer division and truncated subtraction, as in the source). -/
def AccessPattern.shape {r : Nat} (p : AccessPattern r) : Shape r :=
  fun n => p.final n / p.jumps n - p.start n / p.jumps n

/-- access_pattern_t::size(): shape().volume(). -/
def AccessPattern.size {r : Nat} (p : AccessPattern r) : Nat :=
  p.shape.volume

/-- access_pattern_t::map_index(i): start[n] + jumps[n] * i[n] per axis. -/
def AccessPattern.map_index {r : Nat} (p : AccessPattern r) (i : Index r) : Index r :=
  fun n => p.start n + p.jumps n * i n

/-- access_pattern_t::inverse_map_index(m): (m[n] - start[n]) / jumps[n]
per axis; the subtraction is the unsigned (truncating) one, and the result
is documented to be meaningful only when generates(m) holds. -/
def AccessPattern.inverse_map_index {r : Nat} (p : AccessPattern r) (m : Index r) : Index r :=
  fun n => (m n - p.start n) / p.jumps n

/-- access_pattern_t::generates(m): start[n] <= m[n] < final[n] and
(m[n]-start[n]) % jumps[n] == 0 on every axis (the source short-circuits,
so the modulus is only reached when m[n] >= start[n]). -/
def AccessPattern.generates {r : Nat} (p : AccessPattern r) (m : Index r) : Prop :=
  ∀ n, p.start n ≤ m n ∧ m n < p.final n ∧ (m n - p.start n) % p.jumps n = 0

instance {r : Nat} (p : AccessPattern r) (m : Index r) : Decidable (p.generates m) :=
  inferInstanceAs (Decidable (∀ n, p.start n ≤ m n ∧ m n < p.final n ∧ (m n - p.start n) % p.jumps n = 0))

/-- access_pattern_t::contains(i): shape().contains(i). -/
def AccessPattern.contains {r : Nat} (p : AccessPattern r) (i : Index r) : Prop :=
  p.shape.contains i

instance {r : Nat} (p : AccessPattern r) (i : Index r) : Decidable (p.contains i) :=
  inferInstanceAs (Decidable (p.shape.contains i))

/-- access_pattern_t::within(parent_shape): both the first mapped index
(map of zero) and the last mapped index (map of shape().last_index()) are
>= zero and <= parent_shape.last_index(), component-wise. -/
def AccessPattern.within {r : Nat} (p : AccessPattern r) (parent : Shape r) : Prop :=
  Index.le (fun _ => 0) (p.map_index (fun _ => 0)) ∧
  Index.le (p.map_index (fun _ => 0)) parent.lastIndex ∧
  Index.le (fun _ => 0) (p.map_index p.shape.lastIndex) ∧
  Index.le (p.map_index p.shape.lastIndex) parent.lastIndex

instance {r : Nat} (p : AccessPattern r) (parent : Shape r) : Decidable (p.within parent) :=
  inferInstanceAs (Decidable (_ ∧ _ ∧ _ ∧ _))

/-- access_pattern_t::advance, inner loop.  The C++ walks an axis counter n
from Rank-1 down to 0: it bumps coordinate n by jumps[n]; if the result is
still below final[n] it stops with true, otherwise it resets coordinate n
to start[n] and carries into axis n-1, except at axis 0 where it snaps the
whole index to final and reports false. -/
def AccessPattern.advanceLoop {r : Nat} (p : AccessPattern r) : Nat → Index r → Bool × Index r
  | 0, idx =>
    if h : 0 < r then
      let c := idx ⟨0, h⟩ + p.jumps ⟨0, h⟩
      if c < p.final ⟨0, h⟩ then (true, Function.update idx ⟨0, h⟩ c)
      else (false, p.final)
    else (false, idx)
  | m + 1, idx =>
    if h : m + 1 < r then
      let c := idx ⟨m + 1, h⟩ + p.jumps ⟨m + 1, h⟩
      if c < p.final ⟨m + 1, h⟩ then (true, Function.update idx ⟨m + 1, h⟩ c)
      else p.advanceLoop m (Function.update idx ⟨m + 1, h⟩ (p.start ⟨m + 1, h⟩))
    else (false, idx)

/-- access_pattern_t::advance(index): start the carry loop at the last
axis.  Only defined for positive rank, as in the source (Rank - 1 must be
a valid axis). -/
def AccessPattern.advance {r : Nat} (p : AccessPattern (r + 1)) (idx : Index (r + 1)) :
    Bool × Index (r + 1) :=
  p.advanceLoop r idx

/-- One iterator step list, with fuel: the iterator starts at a cursor and
stops as soon as the cursor equals final (the end() sentinel), otherwise
yields the cursor and continues from the advanced cursor.  Fuel makes the
function total; every theorem below supplies provably sufficient fuel. -/
def AccessPattern.iterFuel {r : Nat} (p : AccessPattern (r + 1)) : Nat → Index (r + 1) → List (Index (r + 1))
  | 0, _ => []
  | fuel + 1, cur =>
    if cur = p.final then []
    else cur :: p.iterFuel fuel (p.advance cur).2

/-- A crude upper bound on the number of iteration steps, used as default
fuel for the iteration model. -/
def AccessPattern.bigFuel {r : Nat} (p : AccessPattern r) : Nat :=
  (List.ofFn (fun n => p.final n + p.jumps n + 1)).foldl (· * ·) 1

/-- The list of indexes visited by iterating the pattern from begin()
(cursor = start) to end() (cursor = final), i.e. by the range-for loops of
the reduction operators. -/
def AccessPattern.indexes {r : Nat} (p : AccessPattern (r + 1)) : List (Index (r + 1)) :=
  p.iterFuel p.bigFuel p.start

/-- make_access_pattern(shape): start all zero, final the shape's extents,
jumps all one. -/
def make_access_pattern {r : Nat} (s : Shape r) : AccessPattern r :=
  ⟨fun _ => 0, fun n => s n, fun _ => 1⟩

/-- An array as produced by make_array over a basic_provider_t: a shape
together with the mapping from index to value.  Lazy composed arrays and
computed arrays are both of this form. -/
structure NdArray (α : Type) (r : Nat) where
  shape : Shape r
  eval : Index r → α

/-- array_t::size(): the provider's shape volume. -/
def NdArray.size {α : Type} {r : Nat} (A : NdArray α r) : Nat :=
  A.shape.volume

/-- array_t::indexes(): make_access_pattern(provider.shape()), iterated
from begin() to end(). -/
def NdArray.indexes {α : Type} {r : Nat} (A : NdArray α (r + 1)) : List (Index (r + 1)) :=
  (make_access_pattern A.shape).indexes

/-- selector_t::operator(): throw when the region is not within the
argument shape, else the array of shape region.shape() that evaluates the
argument at region.map_index(index). -/
def select {α : Type} {r : Nat} (region : AccessPattern r) (A : NdArray α r) :
    Except String (NdArray α r) :=
  if region.within A.shape then
    Except.ok ⟨region.shape, fun i => A.eval (region.map_index i)⟩
  else
    Except.error "out-of-bounds selection"

/-- replacer_t::operator(): throw when the region shape differs from the
replacement shape, else keep the patched array's shape and evaluate the
replacement at inverse_map_index on generated indexes, the patched array
elsewhere. -/
def replace {α : Type} {r : Nat} (region : AccessPattern r) (repl : NdArray α r)
    (A : NdArray α r) : Except String (NdArray α r) :=
  if region.shape = repl.shape then
    Except.ok ⟨A.shape, fun i =>
      if region.generates i then repl.eval (region.inverse_map_index i) else A.eval i⟩
  else
    Except.error "region to replace has a different shape than the replacement array"

/-- The std::size_t subtraction index[axis] -= delta performed by
axis_shifter_t: the signed delta is converted to the unsigned word and
subtracted modulo 2^64. -/
def usub (x : Nat) (d : Int) : Nat :=
  (((x : Int) - d) % ((2 : Int) ^ 64)).toNat

/-- axis_shifter_t::operator() (shift_by(delta).along_axis(axis)): throw
when the axis is at least the rank, then when |delta| is at least the
extent on that axis; otherwise shrink that extent by |delta| and evaluate
the argument with the axis coordinate shifted down by delta (unsigned
arithmetic). -/
def axis_shift {α : Type} {r : Nat} (axis : Nat) (delta : Int) (A : NdArray α r) :
    Except String (NdArray α r) :=
  if h : axis < r then
    if delta.natAbs ≥ A.shape ⟨axis, h⟩ then
      Except.error "cannot shift an array by more than its length on that axis"
    else
      Except.ok ⟨Function.update A.shape ⟨axis, h⟩ (A.shape ⟨axis, h⟩ - delta.natAbs),
        fun i => A.eval (Function.update i ⟨axis, h⟩ (usub (i ⟨axis, h⟩) delta))⟩
  else
    Except.error "cannot shift axis greater than or equal to array rank"

/-- unique_provider_t: an exclusively owned buffer with a declared shape.
The strides are a function of the shape and are omitted here; the claims
below are about the shape/buffer bookkeeping of reshape. -/
structure unique_provider (α : Type) (r : Nat) where
  the_shape : Shape r
  buffer : List α

/-- shared_provider_t: a reference-counted buffer with a declared shape. -/
structure shared_provider (α : Type) (r : Nat) where
  the_shape : Shape r
  buffer : List α

/-- The unique_provider_t constructor: throws when the shape volume does
not match the buffer size. -/
def make_unique_provider {α : Type} {r : Nat} (s : Shape r) (buf : List α) :
    Except String (unique_provider α r) :=
  if s.volume ≠ buf.length then Except.error "shape and buffer sizes do not match"
  else Except.ok ⟨s, buf⟩

/-- The shared_provider_t constructor: throws when the shape volume does
not match the buffer size. -/
def make_shared_provider {α : Type} {r : Nat} (s : Shape r) (buf : List α) :
    Except String (shared_provider α r) :=
  if s.volume ≠ buf.length then Except.error "shape and buffer sizes do not match"
  else Except.ok ⟨s, buf⟩

/-- unique_provider_t::size(): the declared shape's volume. -/
def unique_provider.size {α : Type} {r : Nat} (p : unique_provider α r) : Nat :=
  p.the_shape.volume

/-- shared_provider_t::size(): the declared shape's volume. -/
def shared_provider.size {α : Type} {r : Nat} (p : shared_provider α r) : Nat :=
  p.the_shape.volume

/-- unique_provider_t::reshape(new_shape): construct a unique provider of
the new shape over the same element sequence (the constructor check
included). -/
def unique_provider.reshape {α : Type} {r r2 : Nat} (p : unique_provider α r)
    (new_shape : Shape r2) : Except String (unique_provider α r2) :=
  make_unique_provider new_shape p.buffer

/-- shared_provider_t::reshape(new_shape): construct a shared provider of
the new shape over the same buffer (the constructor check included). -/
def shared_provider.reshape {α : Type} {r r2 : Nat} (p : shared_provider α r)
    (new_shape : Shape r2) : Except String (shared_provider α r2) :=
  make_shared_provider new_shape p.buffer

/-- nd::reshape(new_shape) applied to a unique-provider array: throw when
the new shape's volume differs from the provider's size, else delegate to
the provider's reshape. -/
def reshape_unique {α : Type} {r r2 : Nat} (new_shape : Shape r2)
    (p : unique_provider α r) : Except String (unique_provider α r2) :=
  if new_shape.volume ≠ p.size then Except.error "cannot reshape array to a different size"
  else p.reshape new_shape

/-- nd::reshape(new_shape) applied to a shared-provider array: throw when
the new shape's volume differs from the provider's size, else delegate to
the provider's reshape. -/
def reshape_shared {α : Type} {r r2 : Nat} (new_shape : Shape r2)
    (p : shared_provider α r) : Except String (shared_provider α r2) :=
  if new_shape.volume ≠ p.size then Except.error "cannot reshape array to a different size"
  else p.reshape new_shape

/-- nd::sum() for a non-boolean value type: result starts from the
default-constructed value and accumulates array(i) over the iterated
indexes in order. -/
def sum {α : Type} [Add α] [Inhabited α] {r : Nat} (A : NdArray α (r + 1)) : α :=
  A.indexes.foldl (fun acc i => acc + A.eval i) default

/-- nd::sum() for value type bool: the result type is unsigned long, so
each true element adds one to an unsigned count starting from zero. -/
def sumBool {r : Nat} (A : NdArray Bool (r + 1)) : Nat :=
  A.indexes.foldl (fun acc i => acc + (if A.eval i then 1 else 0)) 0

/-- nd::min(array): result starts default-constructed with a first flag;
each visited element replaces the result when the flag is set or the
element is smaller. -/
def NdArray.min {α : Type} [Inhabited α] [LT α] [DecidableRel (α := α) (· < ·)]
    {r : Nat} (A : NdArray α (r + 1)) : α :=
  (A.indexes.foldl (fun st i =>
    if st.1 ∨ A.eval i < st.2 then (false, A.eval i) else (false, st.2))
    (true, (default : α))).2

/-- nd::max(array): result starts default-constructed with a first flag;
each visited element replaces the result when the flag is set or the
element is greater. -/
def NdArray.max {α : Type} [Inhabited α] [LT α] [DecidableRel (α := α) (· < ·)]
    {r : Nat} (A : NdArray α (r + 1)) : α :=
  (A.indexes.foldl (fun st i =>
    if st.1 ∨ st.2 < A.eval i then (false, A.eval i) else (false, st.2))
    (true, (default : α))).2

/-- The index list collected by nd::where over a boolean array: the
iterated indexes whose element is true, in iteration order.  (The source
first maps the array through bool; here the array is already boolean.) -/
def whereList {r : Nat} (A : NdArray Bool (r + 1)) : List (Index (r + 1)) :=
  A.indexes.filter (fun i => A.eval i)

/-- nd::where(array): a 1-dimensional array whose length is the boolean
sum of the array and whose n-th element is the n-th collected index. -/
def whereArray {r : Nat} (A : NdArray Bool (r + 1)) : NdArray (Index (r + 1)) 1 :=
  ⟨fun _ => sumBool A, fun n => (whereList A).getD (n 0) default⟩

/-- The row-major (last axis fastest) enumeration of all indexes of a
shape: axis 0 varies slowest. -/
def rowMajorList : {r : Nat} → Shape r → List (Index r)
  | 0, _ => [fun n => n.elim0]
  | _ + 1, s =>
    (List.range (s 0)).flatMap
      (fun a => (rowMajorList (Fin.tail s)).map (fun k => Fin.cons a k))

/-- The access pattern on the axes 1.. of a pattern (used to relate the
carry loop of advance at rank r+1 to the one at rank r). -/
def AccessPattern.tailPattern {r : Nat} (p : AccessPattern (r + 1)) : AccessPattern r :=
  ⟨Fin.tail p.start, Fin.tail p.final, Fin.tail p.jumps⟩

/-- The tail of an index after the carry loop has reset axes 1..m+1 of the
enclosing pattern (axes 0..m of the tail) to their start values. -/
def carryTail {r : Nat} (p : AccessPattern (r + 1)) (k : Index r) (m : Nat) : Index r :=
  fun i => if i.val ≤ m then Fin.tail p.start i else k i

/-- The graph of the iterator loop: Iterates p cur l holds when the
range-for loop started at cursor cur visits exactly the indexes in l
before the cursor reaches the end() sentinel (final). -/
inductive Iterates {r : Nat} (p : AccessPattern (r + 1)) : Index (r + 1) → List (Index (r + 1)) → Prop
  | done : Iterates p p.final []
  | step : ∀ cur l, cur ≠ p.final → Iterates p (p.advance cur).2 l → Iterates p cur (cur :: l)

end nd

/-- C1: for every access pattern with per-axis jumps at least one and every
local index i inside the pattern shape, inverse_map_index(map_index(i)) = i. -/
theorem nd.round_trip {r : Nat} (P : nd.AccessPattern r) (i : nd.Index r)
    (hj : ∀ n, 1 ≤ P.jumps n) (_hc : P.contains i) :
    P.inverse_map_index (P.map_index i) = i := by
  funext n
  have hj0 : 0 < P.jumps n := hj n
  simp [nd.AccessPattern.inverse_map_index, nd.AccessPattern.map_index,
    Nat.add_sub_cancel_left, Nat.mul_div_cancel_left _ hj0]

/-- C1 witness: the round trip at the concrete rank-1 pattern
(start 1, final 9, jumps 2) and local index 2. -/
theorem nd.round_trip_witness :
    (∀ n, 1 ≤ (nd.AccessPattern.mk (fun _ => 1) (fun _ => 9) (fun _ => 2) : nd.AccessPattern 1).jumps n) ∧
    (nd.AccessPattern.mk (fun _ => 1) (fun _ => 9) (fun _ => 2) : nd.AccessPattern 1).contains (fun _ => 2) ∧
    (nd.AccessPattern.mk (fun _ => 1) (fun _ => 9) (fun _ => 2) : nd.AccessPattern 1).inverse_map_index
      ((nd.AccessPattern.mk (fun _ => 1) (fun _ => 9) (fun _ => 2)).map_index (fun _ => 2)) = (fun _ => 2) :=
  ⟨by decide, by decide,
    nd.round_trip (nd.AccessPattern.mk (fun _ => 1) (fun _ => 9) (fun _ => 2)) (fun _ => 2)
      (by decide) (by decide)⟩

/-- C10: for shapes of positive rank, last_index()[n] is the extent s[n]
itself (one past the greatest valid index), contains(last_index()) is
always false, and within is exactly the component-wise comparison of the
first and last mapped indexes against parent_shape.last_index() with <=. -/
theorem nd.last_index_convention :
    (∀ {r : Nat} (s : nd.Shape (r + 1)) (n : Fin (r + 1)), s.lastIndex n = s n) ∧
    (∀ {r : Nat} (s : nd.Shape (r + 1)), ¬ s.contains s.lastIndex) ∧
    (∀ {r : Nat} (p : nd.AccessPattern r) (parent : nd.Shape r),
      p.within parent ↔
        (nd.Index.le (p.map_index (fun _ => 0)) parent.lastIndex ∧
         nd.Index.le (p.map_index p.shape.lastIndex) parent.lastIndex)) := by
  refine ⟨fun s n => rfl, fun s h => ?_, fun p parent => ?_⟩
  · exact absurd (h 0) (by simp [nd.Shape.lastIndex])
  · constructor
    · rintro ⟨_, h1, _, h2⟩
      exact ⟨h1, h2⟩
    · rintro ⟨h1, h2⟩
      exact ⟨fun n => Nat.zero_le _, h1, fun n => Nat.zero_le _, h2⟩

/-- C3: select(P) throws exactly when P is not within the argument shape
and otherwise yields the array of shape P.shape() that reads through
map_index; in particular a rank-1 pattern of size N over a length-N array
succeeds and the pattern of size N+1 throws. -/
theorem nd.select_bounds :
    (∀ {α : Type} {r : Nat} (P : nd.AccessPattern r) (A : nd.NdArray α r),
      (∀ n, 1 ≤ P.jumps n) →
      ((¬ P.within A.shape → nd.select P A = Except.error "out-of-bounds selection") ∧
       (P.within A.shape →
         nd.select P A = Except.ok ⟨P.shape, fun i => A.eval (P.map_index i)⟩))) ∧
    (∀ {α : Type} (N : Nat) (A : nd.NdArray α 1), A.shape = (fun _ => N) →
      ((nd.make_access_pattern (fun _ => N) : nd.AccessPattern 1).size = N ∧
       nd.select (nd.make_access_pattern (fun _ => N)) A =
         Except.ok ⟨(nd.make_access_pattern (fun _ => N)).shape,
           fun i => A.eval ((nd.make_access_pattern (fun _ => N)).map_index i)⟩) ∧
      ((nd.AccessPattern.mk (fun _ => 0) (fun _ => N + 1) (fun _ => 1) : nd.AccessPattern 1).size = N + 1 ∧
       nd.select (nd.AccessPattern.mk (fun _ => 0) (fun _ => N + 1) (fun _ => 1)) A =
         Except.error "out-of-bounds selection")) := by
  constructor
  · intro α r P A _hj
    constructor
    · intro h
      simp [nd.select, h]
    · intro h
      simp [nd.select, h]
  · intro α N A hA
    have hsize : ∀ M : Nat,
        (nd.AccessPattern.mk (fun _ => 0) (fun _ => M) (fun _ => 1) : nd.AccessPattern 1).size = M := by
      intro M
      simp [nd.AccessPattern.size, nd.AccessPattern.shape, nd.Shape.volume, List.ofFn_succ]
    refine ⟨⟨hsize N, ?_⟩, hsize (N + 1), ?_⟩
    · have hw : (nd.make_access_pattern (fun _ => N) : nd.AccessPattern 1).within A.shape := by
        refine ⟨fun n => Nat.zero_le _, fun n => ?_, fun n => Nat.zero_le _, fun n => ?_⟩ <;>
          simp [nd.make_access_pattern, nd.AccessPattern.map_index, nd.AccessPattern.shape,
            nd.Shape.lastIndex, hA]
      simp [nd.select, hw]
    · have hw : ¬ (nd.AccessPattern.mk (fun _ => 0) (fun _ => N + 1) (fun _ => 1) : nd.AccessPattern 1).within A.shape := by
        rintro ⟨-, -, -, h2⟩
        have := h2 0
        simp [nd.AccessPattern.map_index, nd.AccessPattern.shape, nd.Shape.lastIndex, hA] at this
      simp [nd.select, hw]

/-- C3 witness: the general select characterization applied at the
canonical size-3 pattern over a concrete length-3 array. -/
theorem nd.select_bounds_witness :
    (∀ n, 1 ≤ (nd.make_access_pattern (fun _ => 3) : nd.AccessPattern 1).jumps n) ∧
    (nd.make_access_pattern (fun _ => 3) : nd.AccessPattern 1).within
      (nd.NdArray.mk (fun _ => 3) (fun i => i 0) : nd.NdArray Nat 1).shape ∧
    nd.select (nd.make_access_pattern (fun _ => 3))
        (nd.NdArray.mk (fun _ => 3) (fun i => i 0) : nd.NdArray Nat 1) =
      Except.ok ⟨(nd.make_access_pattern (fun _ => 3)).shape,
        fun i => (nd.NdArray.mk (fun _ => 3) (fun i => i 0) : nd.NdArray Nat 1).eval
          ((nd.make_access_pattern (fun _ => 3)).map_index i)⟩ :=
  ⟨by decide, by decide,
    (nd.select_bounds.1 (nd.make_access_pattern (fun _ => 3))
      (nd.NdArray.mk (fun _ => 3) (fun i => i 0)) (by decide)).2 (by decide)⟩

/-- C4: replace(P, B) throws exactly on a shape mismatch between the
region and the replacement, otherwise keeps the patched array's shape and
reads the replacement through inverse_map_index on generated indexes; in
particular patching [5,10) of a length-10 linear array with a length-5
constant array leaves 0..4 unchanged and makes 5..9 the constant. -/
theorem nd.replace_region :
    (∀ {α : Type} {r : Nat} (P : nd.AccessPattern r) (B A : nd.NdArray α r),
      (P.shape ≠ B.shape → nd.replace P B A =
        Except.error "region to replace has a different shape than the replacement array") ∧
      (P.shape = B.shape → nd.replace P B A = Except.ok ⟨A.shape, fun i =>
        if P.generates i then B.eval (P.inverse_map_index i) else A.eval i⟩)) ∧
    (∀ c : Nat, ∃ R : nd.NdArray Nat 1,
      nd.replace (nd.AccessPattern.mk (fun _ => 5) (fun _ => 10) (fun _ => 1))
        (nd.NdArray.mk (fun _ => 5) (fun _ => c))
        (nd.NdArray.mk (fun _ => 10) (fun i => i 0)) = Except.ok R ∧
      R.shape = (fun _ => 10) ∧
      (∀ k, k < 5 → R.eval (fun _ => k) = k) ∧
      (∀ k, 5 ≤ k → k < 10 → R.eval (fun _ => k) = c)) := by
  constructor
  · intro α r P B A
    constructor
    · intro h
      simp [nd.replace, h]
    · intro h
      simp [nd.replace, h]
  · intro c
    have hsh : (nd.AccessPattern.mk (fun _ => 5) (fun _ => 10) (fun _ => 1) : nd.AccessPattern 1).shape =
        (nd.NdArray.mk (fun _ => 5) (fun _ => c) : nd.NdArray Nat 1).shape := by
      funext n
      simp [nd.AccessPattern.shape]
    refine ⟨⟨fun _ => 10, fun i =>
        if (nd.AccessPattern.mk (fun _ => 5) (fun _ => 10) (fun _ => 1) : nd.AccessPattern 1).generates i
        then c else i 0⟩,
      by simp [nd.replace, hsh, nd.AccessPattern.inverse_map_index],
      rfl, fun k hk => ?_, fun k hk5 hk10 => ?_⟩
    · have hg : ¬ (nd.AccessPattern.mk (fun _ => 5) (fun _ => 10) (fun _ => 1) : nd.AccessPattern 1).generates
          (fun _ => k) := by
        intro h
        have h5 : (5 : Nat) ≤ k := (h 0).1
        omega
      simp [hg]
    · have hg : (nd.AccessPattern.mk (fun _ => 5) (fun _ => 10) (fun _ => 1) : nd.AccessPattern 1).generates
          (fun _ => k) := fun n => ⟨hk5, hk10, Nat.mod_one _⟩
      simp [hg, nd.AccessPattern.inverse_map_index]

/-- C4 witness: the replace characterization at the concrete constant 3,
checked at index 2 (unchanged) and index 7 (replaced). -/
theorem nd.replace_region_witness :
    ∃ R : nd.NdArray Nat 1,
      nd.replace (nd.AccessPattern.mk (fun _ => 5) (fun _ => 10) (fun _ => 1))
        (nd.NdArray.mk (fun _ => 5) (fun _ => 3))
        (nd.NdArray.mk (fun _ => 10) (fun i => i 0)) = Except.ok R ∧
      R.eval (fun _ => 2) = 2 ∧ R.eval (fun _ => 7) = 3 := by
  obtain ⟨R, hok, -, h04, h59⟩ := nd.replace_region.2 3
  exact ⟨R, hok, h04 2 (by omega), h59 7 (by omega) (by omega)⟩

/-- Helper: the success case of reshape on a well-formed unique provider. -/
theorem nd.reshape_unique_ok {α : Type} {r r2 : Nat} (p : nd.unique_provider α r)
    (ns : nd.Shape r2) (hwf : p.the_shape.volume = p.buffer.length)
    (h : ns.volume = p.size) :
    nd.reshape_unique ns p = Except.ok ⟨ns, p.buffer⟩ := by
  have hb : ns.volume = p.buffer.length := by
    rw [h]; exact hwf
  have hs : p.size = p.buffer.length := hwf
  simp [nd.reshape_unique, nd.unique_provider.reshape, nd.make_unique_provider, h, hb, hs]

/-- Helper: the failure case of reshape on a unique provider. -/
theorem nd.reshape_unique_err {α : Type} {r r2 : Nat} (p : nd.unique_provider α r)
    (ns : nd.Shape r2) (h : ns.volume ≠ p.size) :
    nd.reshape_unique ns p = Except.error "cannot reshape array to a different size" := by
  simp [nd.reshape_unique, h]

/-- Helper: the success case of reshape on a well-formed shared provider. -/
theorem nd.reshape_shared_ok {α : Type} {r r2 : Nat} (p : nd.shared_provider α r)
    (ns : nd.Shape r2) (hwf : p.the_shape.volume = p.buffer.length)
    (h : ns.volume = p.size) :
    nd.reshape_shared ns p = Except.ok ⟨ns, p.buffer⟩ := by
  have hb : ns.volume = p.buffer.length := by
    rw [h]; exact hwf
  have hs : p.size = p.buffer.length := hwf
  simp [nd.reshape_shared, nd.shared_provider.reshape, nd.make_shared_provider, h, hb, hs]

/-- Helper: the failure case of reshape on a shared provider. -/
theorem nd.reshape_shared_err {α : Type} {r r2 : Nat} (p : nd.shared_provider α r)
    (ns : nd.Shape r2) (h : ns.volume ≠ p.size) :
    nd.reshape_shared ns p = Except.error "cannot reshape array to a different size" := by
  simp [nd.reshape_shared, h]

/-- C5: reshape on a memory-backed provider succeeds exactly when the
requested shape's volume equals the provider's size, returning a provider
of the new shape over the same buffer, for both the unique and the shared
variant; the (10,10) provider reshapes to (5,20) and (5,5,4) but not to
(10,10,10). -/
theorem nd.reshape_volume :
    (∀ {α : Type} {r r2 : Nat} (p : nd.unique_provider α r) (ns : nd.Shape r2),
      p.the_shape.volume = p.buffer.length →
      ((ns.volume = p.size → nd.reshape_unique ns p = Except.ok ⟨ns, p.buffer⟩) ∧
       (ns.volume ≠ p.size →
         nd.reshape_unique ns p = Except.error "cannot reshape array to a different size"))) ∧
    (∀ {α : Type} {r r2 : Nat} (p : nd.shared_provider α r) (ns : nd.Shape r2),
      p.the_shape.volume = p.buffer.length →
      ((ns.volume = p.size → nd.reshape_shared ns p = Except.ok ⟨ns, p.buffer⟩) ∧
       (ns.volume ≠ p.size →
         nd.reshape_shared ns p = Except.error "cannot reshape array to a different size"))) ∧
    (∀ buf : List Nat, buf.length = 100 →
      nd.reshape_unique (![5, 20] : nd.Shape 2) (⟨![10, 10], buf⟩ : nd.unique_provider Nat 2) =
        Except.ok ⟨![5, 20], buf⟩ ∧
      nd.reshape_unique (![5, 5, 4] : nd.Shape 3) (⟨![10, 10], buf⟩ : nd.unique_provider Nat 2) =
        Except.ok ⟨![5, 5, 4], buf⟩ ∧
      nd.reshape_unique (![10, 10, 10] : nd.Shape 3) (⟨![10, 10], buf⟩ : nd.unique_provider Nat 2) =
        Except.error "cannot reshape array to a different size") := by
  refine ⟨fun p ns hwf => ⟨nd.reshape_unique_ok p ns hwf, nd.reshape_unique_err p ns⟩,
          fun p ns hwf => ⟨nd.reshape_shared_ok p ns hwf, nd.reshape_shared_err p ns⟩,
          fun buf hb => ?_⟩
  have h1010 : nd.Shape.volume (![10, 10] : nd.Shape 2) = 100 := by decide
  have hwf : (⟨![10, 10], buf⟩ : nd.unique_provider Nat 2).the_shape.volume = buf.length := by
    rw [hb]; exact h1010
  refine ⟨nd.reshape_unique_ok (⟨![10, 10], buf⟩ : nd.unique_provider Nat 2) (![5, 20]) hwf
      ((by decide : nd.Shape.volume (![5, 20] : nd.Shape 2) = nd.Shape.volume (![10, 10] : nd.Shape 2))),
    nd.reshape_unique_ok (⟨![10, 10], buf⟩ : nd.unique_provider Nat 2) (![5, 5, 4]) hwf
      ((by decide : nd.Shape.volume (![5, 5, 4] : nd.Shape 3) = nd.Shape.volume (![10, 10] : nd.Shape 2))),
    nd.reshape_unique_err (⟨![10, 10], buf⟩ : nd.unique_provider Nat 2) (![10, 10, 10])
      ((by decide : nd.Shape.volume (![10, 10, 10] : nd.Shape 3) ≠ nd.Shape.volume (![10, 10] : nd.Shape 2)))⟩

/-- C5 witness: the reshape characterization applied to the concrete
all-zero buffer of length 100. -/
theorem nd.reshape_volume_witness :
    (List.replicate 100 (0 : Nat)).length = 100 ∧
    nd.reshape_unique (![5, 20] : nd.Shape 2)
        (⟨![10, 10], List.replicate 100 (0 : Nat)⟩ : nd.unique_provider Nat 2) =
      Except.ok ⟨![5, 20], List.replicate 100 (0 : Nat)⟩ :=
  ⟨by simp, (nd.reshape_volume.2.2 (List.replicate 100 0) (by simp)).1⟩

/-- C6: shift_by(d).along_axis(a) throws when the axis is out of range or
|d| is at least the extent on that axis; otherwise the result's shape is
the argument's with that extent shrunk by |d|, and every element reads the
argument at the same index with the axis coordinate decreased by d in
unsigned (mod 2^64) arithmetic, which is the ordinary decrement whenever
that decrement is representable. -/
theorem nd.shift_axis_spec :
    ∀ {α : Type} {r : Nat} (a : Nat) (d : Int) (A : nd.NdArray α r),
      (r ≤ a →
        nd.axis_shift a d A = Except.error "cannot shift axis greater than or equal to array rank") ∧
      (∀ h : a < r, A.shape ⟨a, h⟩ ≤ d.natAbs →
        nd.axis_shift a d A = Except.error "cannot shift an array by more than its length on that axis") ∧
      (∀ h : a < r, d.natAbs < A.shape ⟨a, h⟩ →
        nd.axis_shift a d A = Except.ok
          ⟨Function.update A.shape ⟨a, h⟩ (A.shape ⟨a, h⟩ - d.natAbs),
            fun i => A.eval (Function.update i ⟨a, h⟩ (nd.usub (i ⟨a, h⟩) d))⟩ ∧
        (∀ i : nd.Index r, 0 ≤ (i ⟨a, h⟩ : Int) - d → (i ⟨a, h⟩ : Int) - d < 2 ^ 64 →
          nd.usub (i ⟨a, h⟩) d = ((i ⟨a, h⟩ : Int) - d).toNat)) := by
  intro α r a d A
  refine ⟨fun h => ?_, fun h hd => ?_, fun h hd => ⟨?_, fun i h0 h64 => ?_⟩⟩
  · simp [nd.axis_shift, Nat.not_lt.mpr h]
  · simp [nd.axis_shift, h, Nat.le_of_lt, hd]
  · simp [nd.axis_shift, h, Nat.not_le.mpr hd]
  · unfold nd.usub
    rw [Int.emod_eq_of_lt h0 h64]

/-- C6 witness: shifting the rank-1 identity array of length 10 by +2
along axis 0 gives shape 8 and reads element 5 from position 3; the two
error branches fire at axis 1 and at delta 10. -/
theorem nd.shift_axis_spec_witness :
    nd.axis_shift 1 2 (nd.NdArray.mk (fun _ => 10) (fun i => i 0) : nd.NdArray Nat 1) =
      Except.error "cannot shift axis greater than or equal to array rank" ∧
    nd.axis_shift 0 10 (nd.NdArray.mk (fun _ => 10) (fun i => i 0) : nd.NdArray Nat 1) =
      Except.error "cannot shift an array by more than its length on that axis" ∧
    nd.axis_shift 0 2 (nd.NdArray.mk (fun _ => 10) (fun i => i 0) : nd.NdArray Nat 1) =
      Except.ok ⟨Function.update (fun _ => 10) (⟨0, by omega⟩ : Fin 1) (10 - (2 : Int).natAbs),
        fun i => (nd.NdArray.mk (fun _ => 10) (fun i => i 0) : nd.NdArray Nat 1).eval
          (Function.update i ⟨0, by omega⟩ (nd.usub (i ⟨0, by omega⟩) 2))⟩ ∧
    nd.usub 5 2 = 3 := by
  refine ⟨(nd.shift_axis_spec 1 2 _).1 (by omega),
    (nd.shift_axis_spec 0 10 _).2.1 (by omega) (by decide),
    ((nd.shift_axis_spec 0 2 _).2.2 (by omega) (by decide)).1,
    ?_⟩
  have h := ((nd.shift_axis_spec 0 2
      (nd.NdArray.mk (fun _ => 10) (fun i => i 0) : nd.NdArray Nat 1)).2.2
      (by omega) (by decide)).2 (fun _ => 5) (by decide) (by decide)
  simpa using h

/-- Every false exit of the carry loop (started at a valid axis) snaps the
cursor to final. -/
theorem nd.advanceLoop_false_final {r : Nat} (p : nd.AccessPattern (r + 1)) :
    ∀ (n : Nat), n < r + 1 → ∀ idx : nd.Index (r + 1),
      (p.advanceLoop n idx).1 = false → (p.advanceLoop n idx).2 = p.final := by
  intro n
  induction n with
  | zero =>
    intro hn idx
    simp only [nd.AccessPattern.advanceLoop, dif_pos (Nat.succ_pos r)]
    split
    · intro h
      simp at h
    · intro _
      rfl
  | succ m ih =>
    intro hn idx
    simp only [nd.AccessPattern.advanceLoop, dif_pos hn]
    split
    · intro h
      simp at h
    · exact ih (Nat.lt_of_succ_lt hn) _

/-- Every true exit of the carry loop leaves some axis strictly below its
final value, hence the cursor differs from final. -/
theorem nd.advanceLoop_true_ne_final {r : Nat} (p : nd.AccessPattern (r + 1)) :
    ∀ (n : Nat), n < r + 1 → ∀ idx : nd.Index (r + 1),
      (p.advanceLoop n idx).1 = true → (p.advanceLoop n idx).2 ≠ p.final := by
  intro n
  induction n with
  | zero =>
    intro hn idx
    simp only [nd.AccessPattern.advanceLoop, dif_pos (Nat.succ_pos r)]
    split
    · rename_i hc
      intro _ heq
      have heq2 : Function.update idx ⟨0, Nat.succ_pos r⟩
          (idx ⟨0, Nat.succ_pos r⟩ + p.jumps ⟨0, Nat.succ_pos r⟩) = p.final := heq
      have h2 := congrFun heq2 ⟨0, Nat.succ_pos r⟩
      rw [Function.update_same] at h2
      omega
    · intro h
      simp at h
  | succ m ih =>
    intro hn idx
    simp only [nd.AccessPattern.advanceLoop, dif_pos hn]
    split
    · rename_i hc
      intro _ heq
      have heq2 : Function.update idx ⟨m + 1, hn⟩
          (idx ⟨m + 1, hn⟩ + p.jumps ⟨m + 1, hn⟩) = p.final := heq
      have h2 := congrFun heq2 ⟨m + 1, hn⟩
      rw [Function.update_same] at h2
      omega
    · exact fun h => ih (Nat.lt_of_succ_lt hn) _ h

/-- A false advance snaps the cursor to final. -/
theorem nd.advance_false_final {r : Nat} (p : nd.AccessPattern (r + 1)) (idx : nd.Index (r + 1))
    (h : (p.advance idx).1 = false) : (p.advance idx).2 = p.final :=
  nd.advanceLoop_false_final p r (Nat.lt_succ_self r) idx h

/-- A true advance leaves the cursor off the end sentinel. -/
theorem nd.advance_true_ne_final {r : Nat} (p : nd.AccessPattern (r + 1)) (idx : nd.Index (r + 1))
    (h : (p.advance idx).1 = true) : (p.advance idx).2 ≠ p.final :=
  nd.advanceLoop_true_ne_final p r (Nat.lt_succ_self r) idx h

/-- The loop started at the end sentinel visits nothing. -/
theorem nd.Iterates_final_nil {r : Nat} (p : nd.AccessPattern (r + 1)) (l : List (nd.Index (r + 1)))
    (h : nd.Iterates p p.final l) : l = [] := by
  cases h with
  | done => rfl
  | step cur l hne _ => exact absurd rfl hne

/-- With fuel at least the length of the visited list, the fuelled
iterator computes exactly the visited list. -/
theorem nd.iterFuel_eq_of_Iterates {r : Nat} (p : nd.AccessPattern (r + 1)) :
    ∀ {cur : nd.Index (r + 1)} {l : List (nd.Index (r + 1))}, nd.Iterates p cur l →
      ∀ fuel : Nat, l.length ≤ fuel → p.iterFuel fuel cur = l := by
  intro cur l h
  induction h with
  | done =>
    intro fuel _
    cases fuel with
    | zero => rfl
    | succ f => simp [nd.AccessPattern.iterFuel]
  | step cur l hne _hadv ih =>
    intro fuel hlen
    cases fuel with
    | zero => simp at hlen
    | succ f =>
      simp only [nd.AccessPattern.iterFuel, if_neg hne]
      simp only [List.length_cons, Nat.succ_le_succ_iff] at hlen
      rw [ih f hlen]

/-- Unfolding of the carry loop at axis 0. -/
theorem nd.advanceLoop_zero_eq {r : Nat} (p : nd.AccessPattern r) (h : 0 < r) (idx : nd.Index r) :
    p.advanceLoop 0 idx =
      if idx ⟨0, h⟩ + p.jumps ⟨0, h⟩ < p.final ⟨0, h⟩
      then (true, Function.update idx ⟨0, h⟩ (idx ⟨0, h⟩ + p.jumps ⟨0, h⟩))
      else (false, p.final) := by
  simp only [nd.AccessPattern.advanceLoop, dif_pos h]

/-- Unfolding of the carry loop at a positive axis. -/
theorem nd.advanceLoop_succ_eq {r : Nat} (p : nd.AccessPattern r) (m : Nat) (h : m + 1 < r)
    (idx : nd.Index r) :
    p.advanceLoop (m + 1) idx =
      if idx ⟨m + 1, h⟩ + p.jumps ⟨m + 1, h⟩ < p.final ⟨m + 1, h⟩
      then (true, Function.update idx ⟨m + 1, h⟩ (idx ⟨m + 1, h⟩ + p.jumps ⟨m + 1, h⟩))
      else p.advanceLoop m (Function.update idx ⟨m + 1, h⟩ (p.start ⟨m + 1, h⟩)) := by
  simp only [nd.AccessPattern.advanceLoop, dif_pos h]

/-- Updating a coordinate on a positive axis commutes with the head/tail
decomposition of an index. -/
theorem nd.update_succ_cons {n : Nat} (idx : Fin (n + 1) → Nat) (i : Fin n) (v : Nat) :
    Function.update idx i.succ v = Fin.cons (idx 0) (Function.update (Fin.tail idx) i v) := by
  rw [Fin.cons_update, Fin.cons_self_tail]

/-- The carry loop at rank r+2, started at a positive axis, agrees with
the carry loop of the tail pattern on the index tail: a successful tail
advance keeps the head coordinate, a failed tail advance carries into
axis 0 after resetting the tail axes up to the start axis. -/
theorem nd.advanceLoop_cons {r : Nat} (p : nd.AccessPattern (r + 2)) :
    ∀ (m : Nat), m < r + 1 → ∀ idx : nd.Index (r + 2),
      p.advanceLoop (m + 1) idx =
        if (p.tailPattern.advanceLoop m (Fin.tail idx)).1 = true then
          (true, Fin.cons (idx 0) (p.tailPattern.advanceLoop m (Fin.tail idx)).2)
        else if idx 0 + p.jumps 0 < p.final 0 then
          (true, Fin.cons (idx 0 + p.jumps 0) (nd.carryTail p (Fin.tail idx) m))
        else (false, p.final) := by
  intro m
  induction m with
  | zero =>
    intro hm idx
    have h1 : (1 : Nat) < r + 2 := by omega
    have h0 : (0 : Nat) < r + 2 := by omega
    have hq : (0 : Nat) < r + 1 := by omega
    rw [nd.advanceLoop_succ_eq p 0 h1 idx, nd.advanceLoop_zero_eq p.tailPattern hq (Fin.tail idx)]
    have etl : Fin.tail idx ⟨0, hq⟩ = idx ⟨1, h1⟩ := rfl
    have ejmp : p.tailPattern.jumps ⟨0, hq⟩ = p.jumps ⟨1, h1⟩ := rfl
    have efin : p.tailPattern.final ⟨0, hq⟩ = p.final ⟨1, h1⟩ := rfl
    rw [etl, ejmp, efin]
    by_cases hc : idx ⟨1, h1⟩ + p.jumps ⟨1, h1⟩ < p.final ⟨1, h1⟩
    · rw [if_pos hc, if_pos hc]
      split
      · have es : (⟨0, hq⟩ : Fin (r + 1)).succ = (⟨1, h1⟩ : Fin (r + 2)) := rfl
        rw [← es, nd.update_succ_cons]
      · rename_i habs
        exact absurd rfl habs
    · rw [if_neg hc, if_neg hc]
      split
      · rename_i habs
        simp at habs
      · rw [nd.advanceLoop_zero_eq p h0]
        have e00 : (⟨0, h0⟩ : Fin (r + 2)) = 0 := rfl
        rw [e00]
        have e0 : Function.update idx ⟨1, h1⟩ (p.start ⟨1, h1⟩) (0 : Fin (r + 2)) = idx 0 := by
          refine Function.update_noteq ?_ _ _
          intro hcon
          have := congrArg Fin.val hcon
          simp at this
        rw [e0]
        by_cases hd : idx 0 + p.jumps 0 < p.final 0
        · rw [if_pos hd, if_pos hd]
          refine congrArg _ ?_
          funext j
          refine Fin.cases ?_ (fun i => ?_) j
          · rw [Fin.cons_zero, Function.update_same]
          · rw [Fin.cons_succ, Function.update_noteq (Fin.succ_ne_zero i)]
            by_cases hi : i = (⟨0, hq⟩ : Fin (r + 1))
            · subst hi
              have es : (⟨0, hq⟩ : Fin (r + 1)).succ = (⟨1, h1⟩ : Fin (r + 2)) := rfl
              rw [es, Function.update_same]
              simp [nd.carryTail]
              rfl
            · have hne : i.succ ≠ (⟨1, h1⟩ : Fin (r + 2)) := by
                intro hcon
                have hval : i.val + 1 = 1 := congrArg Fin.val hcon
                exact hi (Fin.ext (show i.val = 0 by omega))
              rw [Function.update_noteq hne]
              have hival : ¬ i.val ≤ 0 := by
                intro hle
                exact hi (Fin.ext (show i.val = 0 by omega))
              simp [nd.carryTail, hival]
              rfl
        · rw [if_neg hd, if_neg hd]
  | succ m ih =>
    intro hm idx
    have h2 : m + 2 < r + 2 := by omega
    have hq : m + 1 < r + 1 := hm
    have hqm : m < r + 1 := by omega
    rw [nd.advanceLoop_succ_eq p (m + 1) h2 idx,
        nd.advanceLoop_succ_eq p.tailPattern m hq (Fin.tail idx)]
    have etl : Fin.tail idx ⟨m + 1, hq⟩ = idx ⟨m + 2, h2⟩ := rfl
    have ejmp : p.tailPattern.jumps ⟨m + 1, hq⟩ = p.jumps ⟨m + 2, h2⟩ := rfl
    have efin : p.tailPattern.final ⟨m + 1, hq⟩ = p.final ⟨m + 2, h2⟩ := rfl
    rw [etl, ejmp, efin]
    by_cases hc : idx ⟨m + 2, h2⟩ + p.jumps ⟨m + 2, h2⟩ < p.final ⟨m + 2, h2⟩
    · rw [if_pos hc, if_pos hc]
      split
      · have es : (⟨m + 1, hq⟩ : Fin (r + 1)).succ = (⟨m + 2, h2⟩ : Fin (r + 2)) := rfl
        rw [← es, nd.update_succ_cons]
      · rename_i habs
        exact absurd rfl habs
    · rw [if_neg hc, if_neg hc]
      have es : (⟨m + 1, hq⟩ : Fin (r + 1)).succ = (⟨m + 2, h2⟩ : Fin (r + 2)) := rfl
      have etail : Fin.tail (Function.update idx ⟨m + 2, h2⟩ (p.start ⟨m + 2, h2⟩)) =
          Function.update (Fin.tail idx) ⟨m + 1, hq⟩ (p.tailPattern.start ⟨m + 1, hq⟩) := by
        rw [← es, Fin.tail_update_succ]
        rfl
      rw [ih hqm (Function.update idx ⟨m + 2, h2⟩ (p.start ⟨m + 2, h2⟩)), etail]
      have e0 : Function.update idx ⟨m + 2, h2⟩ (p.start ⟨m + 2, h2⟩) (0 : Fin (r + 2)) = idx 0 := by
        refine Function.update_noteq ?_ _ _
        intro hcon
        have := congrArg Fin.val hcon
        simp at this
      rw [e0]
      have ecarry : nd.carryTail p
          (Function.update (Fin.tail idx) ⟨m + 1, hq⟩ (p.tailPattern.start ⟨m + 1, hq⟩)) m =
          nd.carryTail p (Fin.tail idx) (m + 1) := by
        funext i
        by_cases hile : i.val ≤ m
        · simp [nd.carryTail, hile, Nat.le_succ_of_le hile]
        · by_cases hieq : i = (⟨m + 1, hq⟩ : Fin (r + 1))
          · subst hieq
            simp only [nd.carryTail, if_neg hile, Function.update_same,
              if_pos (Nat.le_refl (m + 1))]
            rfl
          · have hile1 : ¬ i.val ≤ m + 1 := by
              intro hle
              exact hieq (Fin.ext (show i.val = m + 1 by omega))
            simp only [nd.carryTail, if_neg hile, if_neg hile1]
            exact Function.update_noteq hieq _ _
      rw [ecarry]

/-- advance at rank r+2 as head/tail: a successful tail advance keeps the
head, a failed one carries into axis 0, resetting the whole tail. -/
theorem nd.advance_cons {r : Nat} (p : nd.AccessPattern (r + 2)) (idx : nd.Index (r + 2)) :
    p.advance idx =
      if (p.tailPattern.advance (Fin.tail idx)).1 = true then
        (true, Fin.cons (idx 0) (p.tailPattern.advance (Fin.tail idx)).2)
      else if idx 0 + p.jumps 0 < p.final 0 then
        (true, Fin.cons (idx 0 + p.jumps 0) (Fin.tail p.start))
      else (false, p.final) := by
  have hcar : nd.carryTail p (Fin.tail idx) r = Fin.tail p.start := by
    funext i
    simp [nd.carryTail, Nat.le_of_lt_succ i.isLt]
  have h := nd.advanceLoop_cons p r (Nat.lt_succ_self r) idx
  rw [nd.AccessPattern.advance, h, hcar]
  rfl

/-- The tail pattern of a canonical pattern is the canonical pattern of
the tail shape. -/
theorem nd.tailPattern_canonical {r : Nat} (s : nd.Shape (r + 1)) :
    (nd.make_access_pattern s).tailPattern = nd.make_access_pattern (Fin.tail s) := rfl

/-- Rank-1 canonical iteration: starting the cursor at value a visits the
values a, a+1, ..., s0-1. -/
theorem nd.iterates_canonical_one (s : nd.Shape 1) :
    ∀ a : Nat, a ≤ s 0 →
      nd.Iterates (nd.make_access_pattern s) (fun _ => a)
        ((List.range' a (s 0 - a)).map (fun v => (fun _ => v : nd.Index 1))) := by
  intro a ha
  generalize hk : s 0 - a = k
  induction k generalizing a with
  | zero =>
    have haeq : a = s 0 := by omega
    have hfin : (fun _ => a : nd.Index 1) = (nd.make_access_pattern s).final := by
      funext n
      have hn : n = (0 : Fin 1) := Fin.ext (by omega)
      rw [hn]
      exact haeq
    rw [hfin]
    exact nd.Iterates.done
  | succ k ih =>
    have halt : a < s 0 := by omega
    have hne : (fun _ => a : nd.Index 1) ≠ (nd.make_access_pattern s).final := by
      intro heq
      have := congrFun heq 0
      simp only [nd.make_access_pattern] at this
      omega
    have h0 : (0 : Nat) < 1 := Nat.one_pos
    have hadv : ((nd.make_access_pattern s).advance (fun _ => a)).2 = (fun _ => (a + 1)) := by
      rw [nd.AccessPattern.advance, nd.advanceLoop_zero_eq (nd.make_access_pattern s) h0]
      by_cases hc : a + 1 < s 0
      · rw [if_pos (show (fun _ => a : nd.Index 1) ⟨0, h0⟩ +
            (nd.make_access_pattern s).jumps ⟨0, h0⟩ < (nd.make_access_pattern s).final ⟨0, h0⟩ from hc)]
        funext j
        have hj : j = (⟨0, h0⟩ : Fin 1) := Fin.ext (by omega)
        rw [hj]
        show Function.update (fun _ => a : nd.Index 1) ⟨0, h0⟩
          (a + (nd.make_access_pattern s).jumps ⟨0, h0⟩) ⟨0, h0⟩ = a + 1
        rw [Function.update_same]
        rfl
      · rw [if_neg (show ¬ ((fun _ => a : nd.Index 1) ⟨0, h0⟩ +
            (nd.make_access_pattern s).jumps ⟨0, h0⟩ < (nd.make_access_pattern s).final ⟨0, h0⟩) from hc)]
        have hs : s 0 = a + 1 := by omega
        funext j
        have hj : j = (0 : Fin 1) := Fin.ext (by omega)
        rw [hj]
        exact hs
    have hlist : List.range' a (k + 1) = a :: List.range' (a + 1) k := List.range'_succ a k 1
    rw [hlist]
    simp only [List.map_cons]
    refine nd.Iterates.step _ _ hne ?_
    rw [hadv]
    exact ih (a + 1) (by omega) (by omega)

/-- Lifting a tail-pattern iteration under a fixed head coordinate a: the
loop visits the tail indexes prefixed by a, then hops to the next head
value (or the end sentinel). -/
theorem nd.liftIter {r : Nat} (s : nd.Shape (r + 2)) :
    ∀ (k : nd.Index (r + 1)) (l : List (nd.Index (r + 1))),
      nd.Iterates (nd.make_access_pattern (Fin.tail s)) k l →
      ∀ a : Nat, a < s 0 →
      ∀ rest : List (nd.Index (r + 2)),
        nd.Iterates (nd.make_access_pattern s)
          (if a + 1 < s 0 then Fin.cons (a + 1) (fun _ => 0)
           else (nd.make_access_pattern s).final) rest →
        k ≠ (nd.make_access_pattern (Fin.tail s)).final →
        nd.Iterates (nd.make_access_pattern s) (Fin.cons a k)
          ((l.map (fun t => Fin.cons a t)) ++ rest) := by
  intro k l hIter
  induction hIter with
  | done =>
    intro a ha rest hrest hkne
    exact absurd rfl hkne
  | step cur l hne hnext ih =>
    intro a ha rest hrest _
    rw [List.map_cons, List.cons_append]
    refine nd.Iterates.step _ _ ?_ ?_
    · intro heq
      have h0 := congrFun heq 0
      rw [Fin.cons_zero] at h0
      have haeq : a = s 0 := h0
      omega
    · rw [nd.advance_cons, nd.tailPattern_canonical s, Fin.tail_cons]
      by_cases hb : ((nd.make_access_pattern (Fin.tail s)).advance cur).1 = true
      · rw [if_pos hb, Fin.cons_zero]
        show nd.Iterates (nd.make_access_pattern s)
          (Fin.cons a ((nd.make_access_pattern (Fin.tail s)).advance cur).2)
          (l.map (fun t => Fin.cons a t) ++ rest)
        exact ih a ha rest hrest (nd.advance_true_ne_final _ _ hb)
      · rw [if_neg hb, Fin.cons_zero]
        have hfalse : ((nd.make_access_pattern (Fin.tail s)).advance cur).1 = false := by
          cases hx : ((nd.make_access_pattern (Fin.tail s)).advance cur).1
          · rfl
          · exact absurd hx hb
        have hfin := nd.advance_false_final _ _ hfalse
        rw [hfin] at hnext
        have hl : l = [] := nd.Iterates_final_nil _ _ hnext
        subst hl
        simp only [List.map_nil, List.nil_append]
        by_cases hc : a + 1 < s 0
        · rw [if_pos (show a + (nd.make_access_pattern s).jumps 0 <
              (nd.make_access_pattern s).final 0 from hc)]
          rw [if_pos hc] at hrest
          exact hrest
        · rw [if_neg (show ¬ (a + (nd.make_access_pattern s).jumps 0 <
              (nd.make_access_pattern s).final 0) from hc)]
          rw [if_neg hc] at hrest
          exact hrest

/-- flatMap of singletons is map. -/
theorem nd.flatMap_map_singleton {α β : Type} (l : List α) (g : α → β) :
    l.flatMap (fun a => [g a]) = l.map g := by
  induction l with
  | nil => rfl
  | cons x xs ih => simp [List.flatMap_cons, ih]

/-- Canonical iteration at rank r+2 from head value a (tail cursor at
zero): the loop visits all tail indexes under each head value a, a+1, ...,
s0-1, ending at the sentinel. -/
theorem nd.iterates_canonical_cons {r : Nat} (s : nd.Shape (r + 2))
    (pos : ∀ n, 0 < s n)
    (hIH : nd.Iterates (nd.make_access_pattern (Fin.tail s)) (fun _ => 0)
      (nd.rowMajorList (Fin.tail s))) :
    ∀ a : Nat, a ≤ s 0 →
      nd.Iterates (nd.make_access_pattern s)
        (if a < s 0 then Fin.cons a (fun _ => 0) else (nd.make_access_pattern s).final)
        ((List.range' a (s 0 - a)).flatMap
          (fun b => (nd.rowMajorList (Fin.tail s)).map (fun t => Fin.cons b t))) := by
  intro a ha
  generalize hk : s 0 - a = k
  induction k generalizing a with
  | zero =>
    rw [if_neg (by omega), List.range'_zero]
    exact nd.Iterates.done
  | succ k ihk =>
    have halt : a < s 0 := by omega
    rw [if_pos halt, List.range'_succ, List.flatMap_cons]
    refine nd.liftIter s _ _ hIH a halt _ ?_ ?_
    · have h := ihk (a + 1) (by omega) (by omega)
      exact h
    · intro heq
      have h0 := congrFun heq 0
      have h0e : (0 : Nat) = s ((0 : Fin (r + 1)).succ) := h0
      have hp := pos ((0 : Fin (r + 1)).succ)
      omega

/-- Canonical iteration over a shape with positive extents visits exactly
the row-major enumeration of the shape's indexes. -/
theorem nd.iterates_canonical {r : Nat} :
    ∀ (s : nd.Shape (r + 1)), (∀ n, 0 < s n) →
      nd.Iterates (nd.make_access_pattern s) (fun _ => 0) (nd.rowMajorList s) := by
  induction r with
  | zero =>
    intro s pos
    have h := nd.iterates_canonical_one s 0 (Nat.zero_le _)
    have hlist : ((List.range' 0 (s 0 - 0)).map (fun v => (fun _ => v : nd.Index 1))) =
        nd.rowMajorList s := by
      rw [Nat.sub_zero, ← List.range_eq_range']
      have hrm : nd.rowMajorList s =
          (List.range (s 0)).flatMap
            (fun a => (nd.rowMajorList (Fin.tail s)).map (fun k => (Fin.cons a k : nd.Index 1))) := rfl
      have hrm0 : nd.rowMajorList (Fin.tail s) = [(fun n => n.elim0 : nd.Index 0)] := rfl
      rw [hrm, hrm0]
      simp only [List.map_cons, List.map_nil]
      rw [nd.flatMap_map_singleton]
      refine List.map_congr_left ?_
      intro a _
      funext j
      refine Fin.cases ?_ (fun i => ?_) j
      · exact (Fin.cons_zero (α := fun _ => Nat) a _).symm
      · exact i.elim0
    rw [← hlist]
    exact h
  | succ r ihr =>
    intro s pos
    have hIH := ihr (Fin.tail s) (fun n => pos n.succ)
    have h := nd.iterates_canonical_cons s pos hIH 0 (Nat.zero_le _)
    rw [if_pos (pos 0)] at h
    have hsub : (Fin.cons 0 (fun _ => 0) : nd.Index (r + 2)) = (fun _ => 0) := by
      funext j
      refine Fin.cases ?_ (fun i => ?_) j
      · exact Fin.cons_zero 0 _
      · exact Fin.cons_succ 0 _ i
    rw [hsub] at h
    have hlist : ((List.range' 0 (s 0 - 0)).flatMap
        (fun b => (nd.rowMajorList (Fin.tail s)).map (fun t => Fin.cons b t))) =
        nd.rowMajorList s := by
      rw [Nat.sub_zero, ← List.range_eq_range']
      rfl
    rw [hlist] at h
    exact h

/-- Folding multiplication from an arbitrary seed factors the seed out. -/
theorem nd.foldl_mul_init (l : List Nat) : ∀ a : Nat, l.foldl (· * ·) a = a * l.foldl (· * ·) 1 := by
  induction l with
  | nil => intro a; simp
  | cons x xs ih =>
    intro a
    simp only [List.foldl_cons]
    rw [ih (a * x), ih (1 * x)]
    ring

/-- The volume of a positive-rank shape is the head extent times the
volume of the tail shape. -/
theorem nd.volume_cons {r : Nat} (s : nd.Shape (r + 1)) :
    s.volume = s 0 * nd.Shape.volume (Fin.tail s) := by
  show (List.ofFn s).foldl (· * ·) 1 = _
  rw [List.ofFn_succ, List.foldl_cons, nd.foldl_mul_init, one_mul]
  rfl

/-- Summing a constant map. -/
theorem nd.sum_map_const {β : Type} (l : List β) (c : Nat) :
    (l.map (fun _ => c)).sum = l.length * c := by
  induction l with
  | nil => simp
  | cons x xs ih => simp [ih, Nat.succ_mul, Nat.add_comm]

/-- The row-major enumeration has exactly volume-many entries. -/
theorem nd.rowMajor_length : ∀ {r : Nat} (s : nd.Shape r), (nd.rowMajorList s).length = s.volume := by
  intro r
  induction r with
  | zero =>
    intro s
    rfl
  | succ r ih =>
    intro s
    show ((List.range (s 0)).flatMap
      (fun a => (nd.rowMajorList (Fin.tail s)).map (fun k => (Fin.cons a k : nd.Index (r + 1))))).length =
      s.volume
    rw [List.length_flatMap]
    have hmap : (List.range (s 0)).map
        (List.length ∘ fun a => (nd.rowMajorList (Fin.tail s)).map (fun k => (Fin.cons a k : nd.Index (r + 1)))) =
        (List.range (s 0)).map (fun _ => nd.Shape.volume (Fin.tail s)) := by
      refine List.map_congr_left ?_
      intro a _
      simp [List.length_map, ih (Fin.tail s)]
    rw [hmap, nd.sum_map_const, List.length_range, ← nd.volume_cons]

/-- Pointwise bounds on extents give a bound on the folded product. -/
theorem nd.foldl_mul_le : ∀ {r : Nat} (f g : Fin r → Nat), (∀ n, f n ≤ g n) →
    (List.ofFn f).foldl (· * ·) 1 ≤ (List.ofFn g).foldl (· * ·) 1 := by
  intro r
  induction r with
  | zero =>
    intro f g _
    simp [List.ofFn_zero]
  | succ r ih =>
    intro f g h
    rw [List.ofFn_succ, List.ofFn_succ, List.foldl_cons, List.foldl_cons,
        nd.foldl_mul_init (List.ofFn fun i => f i.succ) (1 * f 0),
        nd.foldl_mul_init (List.ofFn fun i => g i.succ) (1 * g 0)]
    have h1 := ih (fun i => f i.succ) (fun i => g i.succ) (fun i => h i.succ)
    exact Nat.mul_le_mul (Nat.mul_le_mul (Nat.le_refl 1) (h 0)) h1

/-- Iterating the canonical pattern of a shape with positive extents
visits exactly the row-major enumeration. -/
theorem nd.indexes_canonical {r : Nat} (s : nd.Shape (r + 1)) (pos : ∀ n, 0 < s n) :
    (nd.make_access_pattern s).indexes = nd.rowMajorList s := by
  refine nd.iterFuel_eq_of_Iterates _ (nd.iterates_canonical s pos) _ ?_
  rw [nd.rowMajor_length]
  show (List.ofFn s).foldl (· * ·) 1 ≤ _
  exact nd.foldl_mul_le s _ (fun n => by
    show s n ≤ (nd.make_access_pattern s).final n + (nd.make_access_pattern s).jumps n + 1
    show s n ≤ s n + 1 + 1
    omega)

/-- Iterating the canonical pattern of an all-zero shape visits nothing:
begin() equals end() immediately. -/
theorem nd.indexes_all_zero {r : Nat} (s : nd.Shape (r + 1)) (hz : ∀ n, s n = 0) :
    (nd.make_access_pattern s).indexes = [] := by
  have hfin : (nd.make_access_pattern s).start = (nd.make_access_pattern s).final := by
    funext n
    exact (hz n).symm
  show (nd.make_access_pattern s).iterFuel (nd.make_access_pattern s).bigFuel
    (nd.make_access_pattern s).start = []
  cases hbf : (nd.make_access_pattern s).bigFuel with
  | zero => rfl
  | succ f => simp [nd.AccessPattern.iterFuel, hfin]

/-- Folding +1-per-element counts the list. -/
theorem nd.foldl_add_one {β : Type} (l : List β) : ∀ n : Nat,
    l.foldl (fun acc _ => acc + 1) n = n + l.length := by
  induction l with
  | nil => intro n; simp
  | cons x xs ih =>
    intro n
    simp only [List.foldl_cons, List.length_cons, ih (n + 1)]
    omega

/-- Folding an indicator counts the elements accepted by the filter. -/
theorem nd.foldl_add_filter {β : Type} (l : List β) (f : β → Bool) : ∀ n : Nat,
    l.foldl (fun acc i => acc + (if f i then 1 else 0)) n = n + (l.filter f).length := by
  induction l with
  | nil => intro n; simp
  | cons x xs ih =>
    intro n
    simp only [List.foldl_cons, List.filter_cons]
    by_cases hx : f x
    · simp [hx, ih]
      omega
    · simp [hx, ih]

/-- sum over an array with positive extents is the row-major accumulation
of its elements from the default seed. -/
theorem nd.sum_eq_rowMajor {α : Type} [Add α] [Inhabited α] {r : Nat} (A : nd.NdArray α (r + 1))
    (pos : ∀ n, 0 < A.shape n) :
    nd.sum A = (nd.rowMajorList A.shape).foldl (fun acc i => acc + A.eval i) default := by
  show (nd.make_access_pattern A.shape).indexes.foldl _ _ = _
  rw [nd.indexes_canonical A.shape pos]

/-- Boolean sum over an array with positive extents counts the row-major
indexes whose element is true. -/
theorem nd.sumBool_eq_count {r : Nat} (B : nd.NdArray Bool (r + 1))
    (pos : ∀ n, 0 < B.shape n) :
    nd.sumBool B = ((nd.rowMajorList B.shape).filter (fun i => B.eval i)).length := by
  show (nd.make_access_pattern B.shape).indexes.foldl _ _ = _
  rw [nd.indexes_canonical B.shape pos, nd.foldl_add_filter]
  simp

/-- C7 (amended): over an array all of whose extents are positive, sum()
accumulates the elements in row-major order from a default seed, and for
value type bool it counts the true elements (unsigned result); the
(10,10) all-ones array sums to 100.  (The positivity restriction is
forced: with a zero extent next to a nonzero one the iterator visits
indexes outside the array, see the counterexample.) -/
theorem nd.sum_spec :
    (∀ {α : Type} [Add α] [Inhabited α] {r : Nat} (A : nd.NdArray α (r + 1)),
      (∀ n, 0 < A.shape n) →
      nd.sum A = (nd.rowMajorList A.shape).foldl (fun acc i => acc + A.eval i) default) ∧
    (∀ {r : Nat} (B : nd.NdArray Bool (r + 1)), (∀ n, 0 < B.shape n) →
      nd.sumBool B = ((nd.rowMajorList B.shape).filter (fun i => B.eval i)).length) ∧
    nd.sum (nd.NdArray.mk (fun _ => 10) (fun _ => 1) : nd.NdArray Nat 2) = 100 := by
  refine ⟨fun A pos => nd.sum_eq_rowMajor A pos, fun B pos => nd.sumBool_eq_count B pos, ?_⟩
  rw [nd.sum_eq_rowMajor (nd.NdArray.mk (fun _ => 10) (fun _ => 1) : nd.NdArray Nat 2)
    (fun n => (by decide : (0 : Nat) < 10))]
  show (nd.rowMajorList (fun _ => 10 : nd.Shape 2)).foldl (fun acc _ => acc + 1) 0 = 100
  rw [nd.foldl_add_one, nd.rowMajor_length]
  decide

/-- C7 witness: the sum characterization at the rank-1 array 0,1,2. -/
theorem nd.sum_spec_witness :
    (∀ n, 0 < (nd.NdArray.mk (fun _ => 3) (fun i => i 0) : nd.NdArray Nat 1).shape n) ∧
    nd.sum (nd.NdArray.mk (fun _ => 3) (fun i => i 0) : nd.NdArray Nat 1) =
      (nd.rowMajorList (nd.NdArray.mk (fun _ => 3) (fun i => i 0) : nd.NdArray Nat 1).shape).foldl
        (fun acc i => acc + (nd.NdArray.mk (fun _ => 3) (fun i => i 0) : nd.NdArray Nat 1).eval i)
        default :=
  ⟨by decide, nd.sum_spec.1 (nd.NdArray.mk (fun _ => 3) (fun i => i 0)) (by decide)⟩

/-- C7 counterexample: the computed rank-2 all-ones array of shape (0,2)
has no elements, yet sum() returns 2, because the iterator still visits
the indexes (0,0) and (0,1); the row-major accumulation over the array's
actual index space is 0. -/
theorem nd.sum_cex :
    nd.sum (nd.NdArray.mk ![0, 2] (fun _ => 1) : nd.NdArray Nat 2) ≠
      (nd.rowMajorList (nd.NdArray.mk ![0, 2] (fun _ => 1) : nd.NdArray Nat 2).shape).foldl
        (fun acc i => acc + (nd.NdArray.mk ![0, 2] (fun _ => 1) : nd.NdArray Nat 2).eval i)
        default := by
  decide

/-- C8 (amended): min() and max() over an array all of whose extents are
zero return the default-constructed value of the value type.  (The
original claim, for every array of size 0, is refuted by the
counterexample: when only some extents are zero the iterator still visits
indexes, and min/max return elements read there.) -/
theorem nd.min_max_empty {α : Type} [Inhabited α] [LT α] [DecidableRel (α := α) (· < ·)]
    {r : Nat} (A : nd.NdArray α (r + 1)) (hz : ∀ n, A.shape n = 0) :
    nd.NdArray.min A = default ∧ nd.NdArray.max A = default := by
  have hidx : A.indexes = [] := nd.indexes_all_zero A.shape hz
  constructor
  · unfold nd.NdArray.min
    rw [hidx]
    rfl
  · unfold nd.NdArray.max
    rw [hidx]
    rfl

/-- C8 witness: min and max of a rank-1 length-0 array of naturals are 0. -/
theorem nd.min_max_empty_witness :
    (∀ n, (nd.NdArray.mk (fun _ => 0) (fun _ => 5) : nd.NdArray Nat 1).shape n = 0) ∧
    nd.NdArray.min (nd.NdArray.mk (fun _ => 0) (fun _ => 5) : nd.NdArray Nat 1) = default ∧
    nd.NdArray.max (nd.NdArray.mk (fun _ => 0) (fun _ => 5) : nd.NdArray Nat 1) = default :=
  ⟨by decide,
    nd.min_max_empty (nd.NdArray.mk (fun _ => 0) (fun _ => 5)) (by decide)⟩

/-- C8 counterexample: the computed rank-2 array of shape (0,2) with all
elements 7 has size 0, yet min() returns 7, not the default-constructed
value 0: the iterator visits (0,0) and (0,1) despite the zero leading
extent, and the elements read there seed the running minimum. -/
theorem nd.min_max_empty_cex :
    (nd.NdArray.mk ![0, 2] (fun _ => 7) : nd.NdArray Nat 2).size = 0 ∧
    ¬ (nd.NdArray.min (nd.NdArray.mk ![0, 2] (fun _ => 7) : nd.NdArray Nat 2) = default ∧
       nd.NdArray.max (nd.NdArray.mk ![0, 2] (fun _ => 7) : nd.NdArray Nat 2) = default) := by
  refine ⟨by decide, ?_⟩
  intro h
  have h1 : (7 : Nat) = 0 := by
    have := h.1
    rw [show nd.NdArray.min (nd.NdArray.mk ![0, 2] (fun _ => 7) : nd.NdArray Nat 2) = 7 by decide]
      at this
    exact this
  omega

/-- C9 (amended): over a boolean array all of whose extents are positive,
where() yields a one-dimensional array whose length is the number of
row-major indexes with a true element and whose entries are exactly those
indexes in row-major order.  (The positivity restriction is forced: with a
zero extent next to a nonzero one the iterator visits indexes outside the
array, see the counterexample.) -/
theorem nd.where_spec :
    ∀ {r : Nat} (A : nd.NdArray Bool (r + 1)), (∀ n, 0 < A.shape n) →
      (nd.whereArray A).shape =
        (fun _ => ((nd.rowMajorList A.shape).filter (fun i => A.eval i)).length) ∧
      (∀ n : nd.Index 1, (nd.whereArray A).eval n =
        ((nd.rowMajorList A.shape).filter (fun i => A.eval i)).getD (n 0) default) := by
  intro r A pos
  have hcount := nd.sumBool_eq_count A pos
  have hlist : nd.whereList A = (nd.rowMajorList A.shape).filter (fun i => A.eval i) := by
    show (nd.make_access_pattern A.shape).indexes.filter _ = _
    rw [nd.indexes_canonical A.shape pos]
  constructor
  · funext n
    show nd.sumBool A = _
    rw [hcount]
  · intro n
    show (nd.whereList A).getD (n 0) default = _
    rw [hlist]

/-- C9 witness: where() over the rank-1 boolean array (false, true). -/
theorem nd.where_spec_witness :
    (∀ n, 0 < (nd.NdArray.mk (fun _ => 2) (fun i => i 0 == 1) : nd.NdArray Bool 1).shape n) ∧
    (nd.whereArray (nd.NdArray.mk (fun _ => 2) (fun i => i 0 == 1) : nd.NdArray Bool 1)).shape =
      (fun _ => ((nd.rowMajorList (fun _ => 2 : nd.Shape 1)).filter
        (fun i => (nd.NdArray.mk (fun _ => 2) (fun i => i 0 == 1) : nd.NdArray Bool 1).eval i)).length) :=
  ⟨by decide,
    (nd.where_spec (nd.NdArray.mk (fun _ => 2) (fun i => i 0 == 1)) (by decide)).1⟩

/-- C9 counterexample: over the all-true boolean array of shape (0,2) the
where() result has length 2 (the phantom indexes (0,0) and (0,1) are
collected), while the array's actual index space contains no index at all,
so the claimed length is 0. -/
theorem nd.where_cex :
    (nd.whereArray (nd.NdArray.mk ![0, 2] (fun _ => true) : nd.NdArray Bool 2)).shape ≠
      (fun _ => ((nd.rowMajorList (nd.NdArray.mk ![0, 2] (fun _ => true) : nd.NdArray Bool 2).shape).filter
        (fun i => (nd.NdArray.mk ![0, 2] (fun _ => true) : nd.NdArray Bool 2).eval i)).length) := by
  intro h
  have h0 := congrFun h 0
  revert h0
  decide

/-- C2 (failing input): the rank-1 pattern start 0, final 5, jumps 2
satisfies start <= final and jumps >= 1, but shape()/size() give 2 while
iterating the pattern with advance from begin() to end() visits the three
indexes 0, 2, 4 — so per-axis stop/jumps - start/jumps undercounts the
stepping loop, contradicting the documented intent of size(). -/
theorem nd.shape_advance_mismatch :
    (nd.AccessPattern.mk (fun _ => 0) (fun _ => 5) (fun _ => 2) : nd.AccessPattern 1).size = 2 ∧
    (nd.AccessPattern.mk (fun _ => 0) (fun _ => 5) (fun _ => 2) : nd.AccessPattern 1).indexes =
      [fun _ => 0, fun _ => 2, fun _ => 4] ∧
    ((nd.AccessPattern.mk (fun _ => 0) (fun _ => 5) (fun _ => 2) : nd.AccessPattern 1).indexes).length
      = 3 := by
  refine ⟨by decide, by decide, by decide⟩
